import Mathlib

/-!
Verification of the display-width text formatter of tiktok-downloader-cli
(src/TikTokDownloader.py, lines 623-686).

Python strings are modelled as `List Char` (a Python `str` is a sequence of
Unicode code points).  Python integers are modelled as `Int` (widths can go
negative in the source).  The two Unicode property lookups used by the source,
`unicodedata.combining(ch) != 0` and `unicodedata.east_asian_width(ch) in
('W', 'F')`, are external library functions; they are modelled here by
concrete classifiers that are faithful to the real Unicode data on the code
points exercised by the program and by the specification (ASCII, the
combining-diacritics block, the CJK blocks, the box-drawing characters and
the bracket/bullet glyphs appearing in the source).
-/

set_option autoImplicit false

namespace TTD

/-- Escape character that opens an ANSI escape sequence (Python `'\x1b'`). -/
def escChar : Char := '\x1b'

/-- Model of `unicodedata.combining(c) != 0`: combining-mark test.  The range
0x0300-0x036F is the Combining Diacritical Marks block (every code point in it
has a non-zero combining class); it contains U+0301 used by the spec.  Code
points outside the modelled range are classified as non-combining. -/
def combining (c : Char) : Bool :=
  0x0300 ≤ c.toNat && c.toNat ≤ 0x036F

/-- Model of `unicodedata.east_asian_width(c) in ('W', 'F')`: the East-Asian
Wide / Fullwidth ranges of the Unicode East-Asian-width table (CJK, Hangul,
fullwidth forms...).  Box-drawing characters (U+2500-U+257F) and the bullet
U+25CF are East-Asian *Ambiguous*, hence not in these ranges.  -/
def eaWide (c : Char) : Bool :=
  (0x1100 ≤ c.toNat && c.toNat ≤ 0x115F) ||
  (0x2E80 ≤ c.toNat && c.toNat ≤ 0x303E) ||
  (0x3041 ≤ c.toNat && c.toNat ≤ 0x33FF) ||
  (0x3400 ≤ c.toNat && c.toNat ≤ 0x4DBF) ||
  (0x4E00 ≤ c.toNat && c.toNat ≤ 0x9FFF) ||
  (0xA000 ≤ c.toNat && c.toNat ≤ 0xA4CF) ||
  (0xAC00 ≤ c.toNat && c.toNat ≤ 0xD7A3) ||
  (0xF900 ≤ c.toNat && c.toNat ≤ 0xFAFF) ||
  (0xFE30 ≤ c.toNat && c.toNat ≤ 0xFE4F) ||
  (0xFF00 ≤ c.toNat && c.toNat ≤ 0xFF60) ||
  (0xFFE0 ≤ c.toNat && c.toNat ≤ 0xFFE6) ||
  (0x20000 ≤ c.toNat && c.toNat ≤ 0x2FFFD) ||
  (0x30000 ≤ c.toNat && c.toNat ≤ 0x3FFFD)

/-!
ANSI stripping.  The source (line 624/627) is
`ANSI_RE = re.compile(r'\x1b\[[0-9;]*m')` and
`strip_ansi(text) = ANSI_RE.sub('', text)`.

`re.sub` scans left to right; at each position it tries to match
ESC `[` digits/semicolons `m`; on a match it drops the matched span and
resumes after it, otherwise it keeps the character and advances one position.
Only ESC can start a match, and inside a candidate match the only characters
are ESC, `[`, digits and semicolons, so a single forward pass with three
states implements exactly this semantics:
  `normal`   : not inside a candidate match;
  `sawEsc`   : an ESC has been read and is pending;
  `inBody s` : ESC `[` and the body characters `s` (reversed) are pending.
When a candidate fails, the pending characters are emitted verbatim (none of
them except the failing character itself can start a new match) and the
failing character is re-examined as a possible match start.
-/

/-- Character class `[0-9;]` of the ANSI regular expression body. -/
def isBodyChar (c : Char) : Bool := c.isDigit || c = ';'

/-- Scanner state for the ANSI stripper (see module comment above). -/
inductive AnsiState : Type
  | normal : AnsiState
  | sawEsc : AnsiState
  | inBody : List Char → AnsiState
deriving DecidableEq

/-- Characters emitted when the ANSI scanner consumes one character. -/
def stepOut : AnsiState → Char → List Char
  | .normal, c => if c = escChar then [] else [c]
  | .sawEsc, c =>
      if c = '[' then []
      else if c = escChar then [escChar]
      else [escChar, c]
  | .inBody seen, c =>
      if c = 'm' then []
      else if isBodyChar c then []
      else if c = escChar then escChar :: '[' :: seen.reverse
      else escChar :: '[' :: seen.reverse ++ [c]

/-- Successor state when the ANSI scanner consumes one character. -/
def stepState : AnsiState → Char → AnsiState
  | .normal, c => if c = escChar then .sawEsc else .normal
  | .sawEsc, c =>
      if c = '[' then .inBody []
      else if c = escChar then .sawEsc
      else .normal
  | .inBody seen, c =>
      if c = 'm' then .normal
      else if isBodyChar c then .inBody (c :: seen)
      else if c = escChar then .sawEsc
      else .normal

/-- Pending characters emitted at end of input (an unfinished candidate match
is not a match, so its characters are kept). -/
def flushState : AnsiState → List Char
  | .normal => []
  | .sawEsc => [escChar]
  | .inBody seen => escChar :: '[' :: seen.reverse

/-- Run of the ANSI scanner over the input from a given state. -/
def go : List Char → AnsiState → List Char
  | [], s => flushState s
  | c :: cs, s => stepOut s c ++ go cs (stepState s c)

/-- Model of `strip_ansi` (source line 626-627). -/
def strip_ansi (t : List Char) : List Char := go t .normal

/-- State of the ANSI scanner after consuming a list of characters. -/
def runState (l : List Char) (s : AnsiState) : AnsiState := l.foldl stepState s

/-- Model of `char_width` (source lines 629-630):
`return 0 if unicodedata.combining(ch) else 1`.  Note that this per-character
classifier never returns 2. -/
def char_width (c : Char) : Nat := if combining c then 0 else 1

/-- Per-character width used inside `display_width` (source line 637):
0 for combining marks (the `continue`), 2 for East-Asian Wide/Fullwidth,
1 otherwise. -/
def dwChar (c : Char) : Nat :=
  if combining c then 0 else if eaWide c then 2 else 1

/-- Sum of `dwChar` over a list of characters. -/
def dwSum (l : List Char) : Nat := (l.map dwChar).sum

/-- Model of `display_width` (source lines 632-638): strip ANSI sequences,
then sum the per-character widths. -/
def display_width (t : List Char) : Nat := dwSum (strip_ansi t)

/-- Sum of `char_width` over a list of characters; this is the final value of
the `width` accumulator of the loop in `truncate_to_width`. -/
def cwSum (l : List Char) : Nat := (l.map char_width).sum

/-- The character loop of `truncate_to_width` (source lines 643-650): starting
from accumulated width `width`, append characters while the accumulated
`char_width` stays within `W`; returns the collected characters and the final
accumulated width. -/
def truncLoop (W : Nat) : List Char → Nat → List Char × Nat
  | [], width => ([], width)
  | c :: cs, width =>
    if width + char_width c > W then ([], width)
    else
      let r := truncLoop W cs (width + char_width c)
      (c :: r.1, r.2)

/-- The pop loop of `truncate_to_width` (source lines 653-654), expressed on
the reversed list so that popping the last element is structural:
`while out and (display_width(out) + 3) > max_width: out.pop()`. -/
def popLoop (W : Nat) : List Char → List Char
  | [] => []
  | c :: rest =>
    if display_width ((c :: rest).reverse) + 3 > W then popLoop W rest
    else c :: rest

/-- Pop characters from the end of `out` while the remaining display width
plus 3 exceeds `W` (source lines 653-654). -/
def popTail (W : Nat) (out : List Char) : List Char :=
  (popLoop W out.reverse).reverse

/-- The three-character ellipsis marker appended by `truncate_to_width`. -/
def ellipsis : List Char := ['.', '.', '.']

/-- Model of `truncate_to_width` (source lines 640-656). -/
def truncate_to_width (text : List Char) (max_width : Int) : List Char :=
  if max_width ≤ 0 then []
  else
    let W := max_width.toNat
    let r := truncLoop W text 0
    if r.2 < display_width text then
      if 3 ≤ max_width then popTail W r.1 ++ ellipsis else r.1
    else r.1

/-- Builds the character list of an ANSI escape sequence ESC `[` body `m`. -/
def ansiSeq (body : List Char) : List Char := escChar :: '[' :: body ++ ['m']

/-- Color constant `BLUE = '\033[1;34m'` (source line 41). -/
def BLUE : List Char := ansiSeq ['1', ';', '3', '4']

/-- Color constant `CYAN = '\033[1;38;5;51m'` (source line 44). -/
def CYAN : List Char := ansiSeq ['1', ';', '3', '8', ';', '5', ';', '5', '1']

/-- Color constant `GRAY = '\033[1;30m'` (source line 45). -/
def GRAY : List Char := ansiSeq ['1', ';', '3', '0']

/-- Color constant `GREEN2 = '\033[1;38;5;47m'` (source line 48). -/
def GREEN2 : List Char := ansiSeq ['1', ';', '3', '8', ';', '5', ';', '4', '7']

/-- Color constant `RESET = '\033[0m'` (source line 51). -/
def RESET : List Char := ansiSeq ['0']

/-- Color constant `WHITE = '\033[47m'` (source line 52). -/
def WHITE : List Char := ansiSeq ['4', '7']

/-- Constant `BOX_INNER_WIDTH = 69` (source line 623). -/
def BOX_INNER_WIDTH : Int := 69

/-- The decorated label part of `format_kv_line` (source line 660, the local
variable there is named after the English word for a leading segment):
`f" {GRAY}【{RESET}●{GRAY}】{label_color}{label}: {value_color}"`. -/
def kv_pre (label label_color value_color : List Char) : List Char :=
  [' '] ++ GRAY ++ ['【'] ++ RESET ++ ['●'] ++ GRAY ++ ['】'] ++
    label_color ++ label ++ [':', ' '] ++ value_color

/-- Common tail of `format_kv_line` (source lines 661-667) and
`format_menu_line` (source lines 671-677), which are textually identical in
the source: truncate the content to the remaining budget, pad on the right
(clamping a negative padding to zero), and wrap between border glyphs. -/
def compose_line (pre value : List Char) (inner_width : Int) : List Char :=
  let max_value_width : Int := inner_width - display_width pre
  let value_text := truncate_to_width value max_value_width
  let content := pre ++ value_text ++ BLUE
  let padding : Int := inner_width - display_width content
  let padding := if padding < 0 then 0 else padding
  BLUE ++ ['│'] ++ content ++ List.replicate padding.toNat ' ' ++ BLUE ++ ['│']

/-- Model of `format_kv_line` (source lines 658-667); `label_color` defaults
to `CYAN` and `value_color` to `BLUE` at the call sites considered by the
specification. -/
def format_kv_line (label value : List Char)
    (label_color value_color : List Char) (inner_width : Int) : List Char :=
  compose_line (kv_pre label label_color value_color) value inner_width

/-- The decorated index part of `format_menu_line` (source line 670):
`f" {GRAY}【{RESET}{index}{GRAY}】{color}"`. -/
def menu_pre (index color : List Char) : List Char :=
  [' '] ++ GRAY ++ ['【'] ++ RESET ++ index ++ GRAY ++ ['】'] ++ color

/-- Model of `format_menu_line` (source lines 669-677); `color` defaults to
`GREEN2`. -/
def format_menu_line (index text color : List Char) (inner_width : Int) :
    List Char :=
  compose_line (menu_pre index color) text inner_width

/-- The visible label `f" < {title} > "` of `box_header` (source line 681). -/
def header_label_visible (title : List Char) : List Char :=
  [' ', '<', ' '] ++ title ++ [' ', '>', ' ']

/-- The colored label `f" <{WHITE}{GRAY} {title} {WHITE}{RESET}{BLUE}> "` of
`box_header` (source line 682). -/
def header_label_colored (title : List Char) : List Char :=
  [' ', '<'] ++ WHITE ++ GRAY ++ [' '] ++ title ++ [' '] ++
    WHITE ++ RESET ++ BLUE ++ ['>', ' ']

/-- Model of `box_header` (source lines 679-686).  Python `//` is floor
division, hence `Int.fdiv`; Python `'─' * n` is empty for `n ≤ 0`, hence
`Int.toNat`. -/
def box_header (title : List Char) (total_width : Int) : List Char :=
  let inner := total_width - 2
  let dash_count : Int := inner - display_width (header_label_visible title)
  let left := Int.fdiv dash_count 2
  let right := dash_count - left
  BLUE ++ ['╭'] ++ List.replicate left.toNat '─' ++
    header_label_colored title ++ List.replicate right.toNat '─' ++ ['╮']

/-- Characters emitted by the ANSI scanner while consuming `l` from state `s`
(the output of `go` without the final flush). -/
def emit : List Char → AnsiState → List Char
  | [], _ => []
  | c :: cs, s => stepOut s c ++ emit cs (stepState s c)

end TTD

namespace TTD

theorem esc_ne_lbracket : escChar ≠ '[' := by decide

theorem esc_not_body : isBodyChar escChar = false := by decide

theorem esc_ne_m : escChar ≠ 'm' := by decide

theorem go_eq_emit (l : List Char) :
    ∀ s, go l s = emit l s ++ flushState (runState l s) := by
  induction l with
  | nil => intro s; simp [go, emit, runState]
  | cons c cs ih =>
    intro s
    simp [go, emit, runState, List.foldl_cons, ih (stepState s c)]

theorem runState_append (a b : List Char) (s : AnsiState) :
    runState (a ++ b) s = runState b (runState a s) := by
  simp [runState, List.foldl_append]

theorem emit_append (a b : List Char) :
    ∀ s, emit (a ++ b) s = emit a s ++ emit b (runState a s) := by
  induction a with
  | nil => intro s; simp [emit, runState]
  | cons c cs ih =>
    intro s
    simp [emit, runState, List.foldl_cons, ih (stepState s c)]

theorem go_append (a b : List Char) (s : AnsiState) :
    go (a ++ b) s = emit a s ++ go b (runState a s) := by
  rw [go_eq_emit (a ++ b) s, emit_append a b s, runState_append a b s,
    go_eq_emit b (runState a s)]
  simp [List.append_assoc]

theorem stepState_esc (s : AnsiState) : stepState s escChar = .sawEsc := by
  cases s <;> rfl

theorem stepState_normal_of_ne {c : Char} (h : c ≠ escChar) :
    stepState .normal c = .normal := by
  simp [stepState, h]

theorem runState_of_no_esc {a : List Char} (h : escChar ∉ a) :
    runState a .normal = .normal := by
  induction a with
  | nil => rfl
  | cons c cs ih =>
    have hc : c ≠ escChar := by
      rintro rfl; exact h (List.mem_cons_self _ _)
    have : runState (c :: cs) .normal = runState cs .normal := by
      simp [runState, List.foldl_cons, stepState_normal_of_ne hc]
    rw [this]
    exact ih fun hm => h (List.mem_cons_of_mem _ hm)

theorem emit_of_no_esc {a : List Char} (h : escChar ∉ a) :
    emit a .normal = a := by
  induction a with
  | nil => rfl
  | cons c cs ih =>
    have hc : c ≠ escChar := by
      rintro rfl; exact h (List.mem_cons_self _ _)
    simp [emit, stepOut, stepState, hc]
    exact ih fun hm => h (List.mem_cons_of_mem _ hm)

theorem strip_ansi_of_no_esc {a : List Char} (h : escChar ∉ a) :
    strip_ansi a = a := by
  unfold strip_ansi
  rw [go_eq_emit a .normal, runState_of_no_esc h, emit_of_no_esc h]
  simp [flushState]

theorem runState_body (body : List Char) (h : ∀ c ∈ body, isBodyChar c) :
    ∀ seen, runState (body ++ ['m']) (.inBody seen) = .normal := by
  induction body with
  | nil =>
    intro seen
    simp [runState, List.foldl_cons, stepState]
  | cons c cs ih =>
    intro seen
    have hc : isBodyChar c := h c (List.mem_cons_self c cs)
    have hm : c ≠ 'm' := by rintro rfl; simp [isBodyChar] at hc
    have hstep : stepState (.inBody seen) c = .inBody (c :: seen) := by
      simp [stepState, hc, hm]
    have : runState ((c :: cs) ++ ['m']) (.inBody seen)
        = runState (cs ++ ['m']) (.inBody (c :: seen)) := by
      simp [runState, List.foldl_cons, hstep]
    rw [this]
    exact ih (fun x hx => h x (List.mem_cons_of_mem _ hx)) (c :: seen)

theorem emit_body (body : List Char) (h : ∀ c ∈ body, isBodyChar c) :
    ∀ seen, emit (body ++ ['m']) (.inBody seen) = [] := by
  induction body with
  | nil =>
    intro seen
    simp [emit, stepOut, stepState]
  | cons c cs ih =>
    intro seen
    have hc : isBodyChar c := h c (List.mem_cons_self c cs)
    have hm : c ≠ 'm' := by rintro rfl; simp [isBodyChar] at hc
    have : emit ((c :: cs) ++ ['m']) (.inBody seen)
        = emit (cs ++ ['m']) (.inBody (c :: seen)) := by
      simp [emit, stepOut, stepState, hc, hm]
    rw [this]
    exact ih (fun x hx => h x (List.mem_cons_of_mem _ hx)) (c :: seen)

theorem runState_ansiSeq (body : List Char) (h : ∀ c ∈ body, isBodyChar c)
    (s : AnsiState) : runState (ansiSeq body) s = .normal := by
  show runState (escChar :: '[' :: (body ++ ['m'])) s = .normal
  have : runState (escChar :: '[' :: (body ++ ['m'])) s
      = runState (body ++ ['m']) (.inBody []) := by
    simp [runState, List.foldl_cons, stepState_esc]
    rfl
  rw [this]
  exact runState_body body h []

theorem emit_ansiSeq (body : List Char) (h : ∀ c ∈ body, isBodyChar c) :
    emit (ansiSeq body) .normal = [] := by
  show emit (escChar :: '[' :: (body ++ ['m'])) .normal = []
  have h1 : stepState AnsiState.normal escChar = .sawEsc := stepState_esc _
  have : emit (escChar :: '[' :: (body ++ ['m'])) .normal
      = emit (body ++ ['m']) (.inBody []) := by
    simp [emit, stepOut, stepState, h1]
  rw [this]
  exact emit_body body h []

theorem strip_ansi_ansiSeq_append (body b : List Char)
    (h : ∀ c ∈ body, isBodyChar c) :
    strip_ansi (ansiSeq body ++ b) = strip_ansi b := by
  unfold strip_ansi
  rw [go_append, emit_ansiSeq body h, runState_ansiSeq body h]
  rfl

theorem strip_ansi_append_of_runState (a b : List Char)
    (h : runState a .normal = .normal) :
    strip_ansi (a ++ b) = strip_ansi a ++ strip_ansi b := by
  unfold strip_ansi
  rw [go_append, h, go_eq_emit a .normal, h]
  simp [flushState]

theorem go_cons_from (s : AnsiState) (c : Char) (b : List Char)
    (h1 : isBodyChar c = false) (h2 : c ≠ 'm') (h3 : c ≠ '[') :
    go (c :: b) s = flushState s ++ go (c :: b) .normal := by
  by_cases hesc : c = escChar
  · subst hesc
    have hout : ∀ s', stepOut s' escChar = flushState s' := by
      intro s'; cases s' <;> rfl
    show stepOut s escChar ++ go b (stepState s escChar)
        = flushState s ++ (stepOut .normal escChar ++ go b (stepState .normal escChar))
    rw [hout s, stepState_esc s, stepState_esc .normal]
    simp [stepOut, List.append_assoc]
  · have hout : stepOut s c = flushState s ++ [c] := by
      cases s <;> simp [stepOut, flushState, h1, h2, h3, hesc]
    have hst : stepState s c = .normal := by
      cases s <;> simp [stepState, h1, h2, h3, hesc]
    show stepOut s c ++ go b (stepState s c)
        = flushState s ++ (stepOut .normal c ++ go b (stepState .normal c))
    rw [hout, hst, stepState_normal_of_ne hesc]
    simp [stepOut, hesc, List.append_assoc]

theorem strip_ansi_append_cons (a b : List Char) (c : Char)
    (h1 : isBodyChar c = false) (h2 : c ≠ 'm') (h3 : c ≠ '[') :
    strip_ansi (a ++ c :: b) = strip_ansi a ++ strip_ansi (c :: b) := by
  unfold strip_ansi
  rw [go_append, go_cons_from _ c b h1 h2 h3, go_eq_emit a .normal]
  simp [List.append_assoc]

theorem strip_ansi_cons (c : Char) (b : List Char) (h : c ≠ escChar) :
    strip_ansi (c :: b) = c :: strip_ansi b := by
  show stepOut .normal c ++ go b (stepState .normal c) = c :: strip_ansi b
  rw [stepState_normal_of_ne h]
  simp [stepOut, h]
  rfl

end TTD

namespace TTD

theorem dwSum_append (a b : List Char) : dwSum (a ++ b) = dwSum a + dwSum b := by
  simp [dwSum]

theorem dwSum_cons (c : Char) (l : List Char) :
    dwSum (c :: l) = dwChar c + dwSum l := by
  simp [dwSum]

theorem cwSum_append (a b : List Char) : cwSum (a ++ b) = cwSum a + cwSum b := by
  simp [cwSum]

theorem cwSum_cons (c : Char) (l : List Char) :
    cwSum (c :: l) = char_width c + cwSum l := by
  simp [cwSum]

theorem display_width_append_of_runState (a b : List Char)
    (h : runState a .normal = .normal) :
    display_width (a ++ b) = display_width a + display_width b := by
  simp [display_width, strip_ansi_append_of_runState a b h, dwSum_append]

theorem display_width_append_cons (a b : List Char) (c : Char)
    (h1 : isBodyChar c = false) (h2 : c ≠ 'm') (h3 : c ≠ '[') :
    display_width (a ++ c :: b) = display_width a + display_width (c :: b) := by
  simp [display_width, strip_ansi_append_cons a b c h1 h2 h3, dwSum_append]

theorem display_width_cons (c : Char) (b : List Char) (h : c ≠ escChar) :
    display_width (c :: b) = dwChar c + display_width b := by
  simp [display_width, strip_ansi_cons c b h, dwSum_cons]

theorem display_width_of_no_esc {a : List Char} (h : escChar ∉ a) :
    display_width a = dwSum a := by
  simp [display_width, strip_ansi_of_no_esc h]

theorem dwChar_eq_char_width {c : Char} (h : eaWide c = false) :
    dwChar c = char_width c := by
  simp [dwChar, char_width, h]

theorem dwSum_eq_cwSum {l : List Char} (h : ∀ c ∈ l, eaWide c = false) :
    dwSum l = cwSum l := by
  induction l with
  | nil => rfl
  | cons c cs ih =>
    rw [dwSum_cons, cwSum_cons, dwChar_eq_char_width (h c (List.mem_cons_self _ _)),
      ih fun x hx => h x (List.mem_cons_of_mem _ hx)]

theorem char_width_le_dwChar (c : Char) : char_width c ≤ dwChar c := by
  unfold char_width dwChar
  by_cases h : combining c <;> simp [h]
  by_cases h2 : eaWide c <;> simp [h2]

theorem display_width_append_ellipsis (a : List Char) :
    display_width (a ++ ellipsis) = display_width a + 3 := by
  have h := display_width_append_cons a ['.', '.'] '.'
    (by decide) (by decide) (by decide)
  have h2 : display_width ('.' :: ['.', '.']) = 3 := by decide
  show display_width (a ++ ('.' :: ['.', '.'])) = display_width a + 3
  rw [h, h2]

theorem truncLoop_snd (W : Nat) : ∀ (t : List Char) (a : Nat),
    (truncLoop W t a).2 = a + cwSum (truncLoop W t a).1 := by
  intro t
  induction t with
  | nil => intro a; simp [truncLoop, cwSum]
  | cons c cs ih =>
    intro a
    by_cases h : a + char_width c > W
    · simp [truncLoop, h, cwSum]
    · simp only [truncLoop, if_neg h]
      rw [ih (a + char_width c), cwSum_cons]
      omega

theorem truncLoop_isPre (W : Nat) : ∀ (t : List Char) (a : Nat),
    (truncLoop W t a).1 <+: t := by
  intro t
  induction t with
  | nil => intro a; simp [truncLoop]
  | cons c cs ih =>
    intro a
    by_cases h : a + char_width c > W
    · simp [truncLoop, h]
    · simp only [truncLoop, if_neg h]
      obtain ⟨r, hr⟩ := ih (a + char_width c)
      exact ⟨r, by rw [List.cons_append, hr]⟩

theorem truncLoop_le (W : Nat) : ∀ (t : List Char) (a : Nat),
    a ≤ W → (truncLoop W t a).2 ≤ W := by
  intro t
  induction t with
  | nil => intro a ha; simpa [truncLoop] using ha
  | cons c cs ih =>
    intro a ha
    by_cases h : a + char_width c > W
    · simpa [truncLoop, h] using ha
    · simp only [truncLoop, if_neg h]
      exact ih (a + char_width c) (by omega)

theorem truncLoop_longest (W : Nat) : ∀ (t p : List Char) (a : Nat),
    p <+: t → a + cwSum p ≤ W → p <+: (truncLoop W t a).1 := by
  intro t
  induction t with
  | nil =>
    intro p a hp _
    rw [List.prefix_nil.mp hp]
    exact List.nil_prefix
  | cons c cs ih =>
    intro p a hp hw
    cases p with
    | nil => exact List.nil_prefix
    | cons x p' =>
      obtain ⟨hx, hp'⟩ := List.cons_prefix_cons.mp hp
      subst hx
      rw [cwSum_cons] at hw
      have hnot : ¬(a + char_width x > W) := by omega
      simp only [truncLoop, if_neg hnot]
      exact List.cons_prefix_cons.mpr ⟨rfl, ih p' (a + char_width x) hp' (by omega)⟩

theorem truncLoop_all (W : Nat) : ∀ (t : List Char) (a : Nat),
    a + cwSum t ≤ W → (truncLoop W t a).1 = t := by
  intro t
  induction t with
  | nil => intro a _; simp [truncLoop]
  | cons c cs ih =>
    intro a hw
    rw [cwSum_cons] at hw
    have hnot : ¬(a + char_width c > W) := by omega
    simp only [truncLoop, if_neg hnot]
    rw [ih (a + char_width c) (by omega)]

theorem popLoop_suffix (W : Nat) : ∀ l : List Char, popLoop W l <:+ l := by
  intro l
  induction l with
  | nil => simp [popLoop]
  | cons c rest ih =>
    by_cases h : display_width ((c :: rest).reverse) + 3 > W
    · simp only [popLoop]
      rw [if_pos h]
      exact ih.trans (List.suffix_cons c rest)
    · simp only [popLoop]
      rw [if_neg h]

theorem popTail_isPre (W : Nat) (out : List Char) : popTail W out <+: out := by
  have h := popLoop_suffix W out.reverse
  have h2 := List.reverse_prefix.mpr h
  simpa [popTail] using h2

theorem popLoop_spec (W : Nat) : ∀ l : List Char,
    popLoop W l = [] ∨ display_width ((popLoop W l).reverse) + 3 ≤ W := by
  intro l
  induction l with
  | nil => left; rfl
  | cons c rest ih =>
    by_cases h : display_width ((c :: rest).reverse) + 3 > W
    · simp only [popLoop]
      rw [if_pos h]
      exact ih
    · right
      simp only [popLoop]
      rw [if_neg h]
      omega

theorem popTail_spec (W : Nat) (out : List Char) :
    popTail W out = [] ∨ display_width (popTail W out) + 3 ≤ W := by
  rcases popLoop_spec W out.reverse with h | h
  · left; simp [popTail, h]
  · right; simpa [popTail] using h

end TTD

namespace TTD

theorem display_width_nil : display_width [] = 0 := rfl

theorem truncate_nonpos {t : List Char} {w : Int} (h : w ≤ 0) :
    truncate_to_width t w = [] := by
  simp [truncate_to_width, h]

theorem truncate_pos_def (t : List Char) (w : Int) (h : ¬ w ≤ 0) :
    truncate_to_width t w =
      if (truncLoop w.toNat t 0).2 < display_width t then
        if 3 ≤ w then popTail w.toNat (truncLoop w.toNat t 0).1 ++ ellipsis
        else (truncLoop w.toNat t 0).1
      else (truncLoop w.toNat t 0).1 := by
  simp [truncate_to_width, h]

theorem truncate_nil (w : Int) : truncate_to_width [] w = [] := by
  by_cases h : w ≤ 0
  · exact truncate_nonpos h
  · rw [truncate_pos_def [] w h]
    simp [truncLoop, display_width_nil]

theorem truncate_shape (t : List Char) (w : Int) :
    truncate_to_width t w <+: t ∨
      ∃ p, p <+: t ∧ truncate_to_width t w = p ++ ellipsis := by
  by_cases h : w ≤ 0
  · left; rw [truncate_nonpos h]; exact List.nil_prefix
  · rw [truncate_pos_def t w h]
    by_cases h2 : (truncLoop w.toNat t 0).2 < display_width t
    · rw [if_pos h2]
      by_cases h3 : (3 : Int) ≤ w
      · right
        rw [if_pos h3]
        exact ⟨popTail w.toNat (truncLoop w.toNat t 0).1,
          (popTail_isPre _ _).trans (truncLoop_isPre _ _ _), rfl⟩
      · left; rw [if_neg h3]; exact truncLoop_isPre _ _ _
    · left; rw [if_neg h2]; exact truncLoop_isPre _ _ _

theorem dw_eq_cwSum {l : List Char} (hesc : escChar ∉ l)
    (hwide : ∀ c ∈ l, eaWide c = false) : display_width l = cwSum l := by
  rw [display_width_of_no_esc hesc, dwSum_eq_cwSum hwide]

theorem truncate_of_fits {t : List Char} {w : Int} (hesc : escChar ∉ t)
    (hwide : ∀ c ∈ t, eaWide c = false) (hw : (display_width t : Int) ≤ w)
    (hpos : 0 < w) : truncate_to_width t w = t := by
  have hne : ¬ w ≤ 0 := by omega
  rw [truncate_pos_def t w hne]
  have hdw : display_width t = cwSum t := dw_eq_cwSum hesc hwide
  have hall : (truncLoop w.toNat t 0).1 = t :=
    truncLoop_all w.toNat t 0 (by omega)
  have hsnd : (truncLoop w.toNat t 0).2 = cwSum t := by
    rw [truncLoop_snd, hall]; omega
  rw [if_neg (by omega)]
  exact hall

theorem ellipsis_result_width {W : Nat} (out : List Char) (hW : 3 ≤ W) :
    display_width (popTail W out ++ ellipsis) ≤ W := by
  rw [display_width_append_ellipsis]
  rcases popTail_spec W out with h | h
  · rw [h, display_width_nil]; omega
  · omega

theorem truncate_c3_core {t : List Char} {w : Int} (h3 : 3 ≤ w)
    (hlt : w < (display_width t : Int)) :
    (display_width (truncate_to_width t w) : Int) ≤ w ∧
      ellipsis <:+ truncate_to_width t w := by
  have hne : ¬ w ≤ 0 := by omega
  rw [truncate_pos_def t w hne]
  have hsnd := truncLoop_le w.toNat t 0 (Nat.zero_le _)
  have hcond : (truncLoop w.toNat t 0).2 < display_width t := by omega
  rw [if_pos hcond, if_pos h3]
  refine ⟨?_, List.suffix_append _ _⟩
  have := ellipsis_result_width (W := w.toNat) (truncLoop w.toNat t 0).1 (by omega)
  omega

theorem truncate_mem {t : List Char} {w : Int} {c : Char}
    (hc : c ∈ truncate_to_width t w) : c ∈ t ∨ c = '.' := by
  rcases truncate_shape t w with h | ⟨p, hp, heq⟩
  · exact Or.inl (h.subset hc)
  · rw [heq] at hc
    rcases List.mem_append.mp hc with h2 | h2
    · exact Or.inl (hp.subset h2)
    · right
      simpa [ellipsis] using h2

theorem truncate_width_le {t : List Char} {w : Int} (hesc : escChar ∉ t)
    (hwide : ∀ c ∈ t, eaWide c = false) (hw : 0 ≤ w) :
    (display_width (truncate_to_width t w) : Int) ≤ w := by
  by_cases h0 : w ≤ 0
  · rw [truncate_nonpos h0, display_width_nil]; omega
  · rw [truncate_pos_def t w h0]
    have hpre := truncLoop_isPre w.toNat t 0
    have houtesc : escChar ∉ (truncLoop w.toNat t 0).1 := fun hm =>
      hesc (hpre.subset hm)
    have houtwide : ∀ c ∈ (truncLoop w.toNat t 0).1, eaWide c = false :=
      fun c hc => hwide c (hpre.subset hc)
    have hout : (display_width (truncLoop w.toNat t 0).1 : Int) ≤ w := by
      have h1 : display_width (truncLoop w.toNat t 0).1
          = cwSum (truncLoop w.toNat t 0).1 := dw_eq_cwSum houtesc houtwide
      have h2 := truncLoop_le w.toNat t 0 (Nat.zero_le _)
      have h3 := truncLoop_snd w.toNat t 0
      omega
    by_cases h2 : (truncLoop w.toNat t 0).2 < display_width t
    · rw [if_pos h2]
      by_cases h3 : (3 : Int) ≤ w
      · rw [if_pos h3]
        have := ellipsis_result_width (W := w.toNat)
          (truncLoop w.toNat t 0).1 (by omega)
        omega
      · rw [if_neg h3]; exact hout
    · rw [if_neg h2]; exact hout

theorem truncate_idem {t : List Char} {w : Int} (hesc : escChar ∉ t)
    (hwide : ∀ c ∈ t, eaWide c = false) :
    truncate_to_width (truncate_to_width t w) w = truncate_to_width t w := by
  by_cases h0 : w ≤ 0
  · simp only [truncate_nonpos h0]
  · have hresc : escChar ∉ truncate_to_width t w := fun hm => by
      rcases truncate_mem hm with h | h
      · exact hesc h
      · exact absurd h (by decide)
    have hrwide : ∀ c ∈ truncate_to_width t w, eaWide c = false := by
      intro c hc
      rcases truncate_mem hc with h | h
      · exact hwide c h
      · rw [h]; decide
    exact truncate_of_fits hresc hrwide
      (truncate_width_le hesc hwide (by omega)) (by omega)

theorem truncate_small {t : List Char} {w : Int} (h0 : 0 < w) (h3 : w < 3)
    (hgt : w < (display_width t : Int)) :
    truncate_to_width t w = (truncLoop w.toNat t 0).1 := by
  rw [truncate_pos_def t w (by omega)]
  have hsnd := truncLoop_le w.toNat t 0 (Nat.zero_le _)
  have hcond : (truncLoop w.toNat t 0).2 < display_width t := by omega
  rw [if_pos hcond, if_neg (by omega : ¬ (3 : Int) ≤ w)]

end TTD

namespace TTD

theorem runState_BLUE (s : AnsiState) : runState BLUE s = .normal :=
  runState_ansiSeq _ (by decide) s

theorem runState_end_BLUE (a : List Char) :
    runState (a ++ BLUE) .normal = .normal := by
  rw [runState_append]; exact runState_BLUE _

theorem strip_esc_free_append {a : List Char} (b : List Char)
    (h : escChar ∉ a) : strip_ansi (a ++ b) = a ++ strip_ansi b := by
  rw [strip_ansi_append_of_runState a b (runState_of_no_esc h),
    strip_ansi_of_no_esc h]

theorem content_runState (pre v' : List Char) :
    runState (pre ++ v' ++ BLUE) .normal = .normal := by
  have : pre ++ v' ++ BLUE = (pre ++ v') ++ BLUE := by
    simp [List.append_assoc]
  rw [this]
  exact runState_end_BLUE _

theorem content_width (pre v' : List Char)
    (hpre : runState pre .normal = .normal) (hv' : escChar ∉ v') :
    display_width (pre ++ v' ++ BLUE) = display_width pre + display_width v' := by
  rw [List.append_assoc,
    display_width_append_of_runState pre (v' ++ BLUE) hpre,
    display_width_append_of_runState v' BLUE (runState_of_no_esc hv')]
  have hB : display_width BLUE = 0 := by decide
  omega

theorem dwSum_replicate_space (n : Nat) :
    display_width (List.replicate n ' ') = n := by
  have h : escChar ∉ List.replicate n ' ' := by
    intro hm
    have := List.eq_of_mem_replicate hm
    exact absurd this (by decide)
  rw [display_width_of_no_esc h]
  show (List.map dwChar (List.replicate n ' ')).sum = n
  have hdw : dwChar ' ' = 1 := by decide
  rw [List.map_replicate, List.sum_replicate, hdw, smul_eq_mul, mul_one]

theorem box_line_width (content : List Char) (pad : Nat)
    (hc : runState content .normal = .normal) :
    display_width
        (BLUE ++ ['│'] ++ content ++ List.replicate pad ' ' ++ BLUE ++ ['│'])
      = 2 + display_width content + pad := by
  have hB : ∀ b, display_width (BLUE ++ b) = display_width b := by
    intro b
    show display_width (ansiSeq ['1', ';', '3', '4'] ++ b) = display_width b
    simp [display_width, strip_ansi_ansiSeq_append ['1', ';', '3', '4'] b (by decide)]
  have hbar : ∀ b, display_width (['│'] ++ b) = 1 + display_width b := by
    intro b
    show display_width ('│' :: b) = 1 + display_width b
    rw [display_width_cons '│' b (by decide)]
    have : dwChar '│' = 1 := by decide
    omega
  have hrep : escChar ∉ List.replicate pad ' ' := by
    intro hm
    exact absurd (List.eq_of_mem_replicate hm) (by decide)
  simp only [List.append_assoc]
  rw [hB]
  rw [hbar, display_width_append_of_runState content _ hc,
    display_width_append_of_runState (List.replicate pad ' ') _
      (runState_of_no_esc hrep)]
  have h1 : display_width (BLUE ++ ['│']) = 1 := by decide
  have h2 := dwSum_replicate_space pad
  omega

theorem go_sublist (l : List Char) :
    ∀ s, (go l s).Sublist (flushState s ++ l) := by
  induction l with
  | nil =>
    intro s
    simpa [go] using List.Sublist.refl (flushState s)
  | cons c cs ih =>
    intro s
    show (stepOut s c ++ go cs (stepState s c)).Sublist (flushState s ++ c :: cs)
    cases s with
    | normal =>
      by_cases hc : c = escChar
      · subst hc
        simpa [stepOut, stepState, flushState] using ih AnsiState.sawEsc
      · have hsub : (go cs AnsiState.normal).Sublist cs := by
          simpa [flushState] using ih AnsiState.normal
        simpa [stepOut, stepState, flushState, hc] using List.Sublist.cons₂ c hsub
    | sawEsc =>
      by_cases h1 : c = '['
      · subst h1
        simpa [stepOut, stepState, flushState] using ih (AnsiState.inBody [])
      · by_cases h2 : c = escChar
        · subst h2
          have hsub : (go cs AnsiState.sawEsc).Sublist (escChar :: cs) := by
            simpa [flushState] using ih AnsiState.sawEsc
          simpa [stepOut, stepState, flushState, esc_ne_lbracket] using
            List.Sublist.cons₂ escChar hsub
        · have hsub : (go cs AnsiState.normal).Sublist cs := by
            simpa [flushState] using ih AnsiState.normal
          simpa [stepOut, stepState, flushState, h1, h2] using
            List.Sublist.cons₂ escChar (List.Sublist.cons₂ c hsub)
    | inBody seen =>
      by_cases h1 : c = 'm'
      · subst h1
        have hsub : (go cs AnsiState.normal).Sublist cs := by
          simpa [flushState] using ih AnsiState.normal
        have hsub2 : (go cs AnsiState.normal).Sublist ('m' :: cs) :=
          List.Sublist.cons 'm' hsub
        simpa [stepOut, stepState, flushState, isBodyChar] using
          hsub2.trans
            (List.sublist_append_right (escChar :: '[' :: seen.reverse) ('m' :: cs))
      · by_cases h2 : isBodyChar c
        · simpa [stepOut, stepState, flushState, h1, h2, List.append_assoc] using
            ih (AnsiState.inBody (c :: seen))
        · by_cases h3 : c = escChar
          · subst h3
            have hsub : (go cs AnsiState.sawEsc).Sublist (escChar :: cs) := by
              simpa [flushState] using ih AnsiState.sawEsc
            simpa [stepOut, stepState, flushState, h1, h2, List.append_assoc] using
              hsub.append_left (escChar :: '[' :: seen.reverse)
          · have hsub : (go cs AnsiState.normal).Sublist cs := by
              simpa [flushState] using ih AnsiState.normal
            simpa [stepOut, stepState, flushState, h1, h2, h3, List.append_assoc] using
              (List.Sublist.cons₂ c hsub).append_left (escChar :: '[' :: seen.reverse)

theorem strip_ansi_sublist (l : List Char) : (strip_ansi l).Sublist l := by
  simpa [strip_ansi, flushState] using go_sublist l AnsiState.normal

theorem dwSum_sublist_le {l₁ l₂ : List Char} (h : l₁.Sublist l₂) :
    dwSum l₁ ≤ dwSum l₂ := by
  induction h with
  | slnil => exact Nat.le_refl _
  | cons a h ih => rw [dwSum_cons]; omega
  | cons₂ a h ih => rw [dwSum_cons, dwSum_cons]; omega

theorem dw_le_cwSum {l : List Char} (hwide : ∀ c ∈ l, eaWide c = false) :
    display_width l ≤ cwSum l := by
  have h1 : dwSum (strip_ansi l) ≤ dwSum l := dwSum_sublist_le (strip_ansi_sublist l)
  rw [dwSum_eq_cwSum hwide] at h1
  exact h1

theorem truncate_width_le_wide {t : List Char} {w : Int}
    (hwide : ∀ c ∈ t, eaWide c = false) (hw : 0 ≤ w) :
    (display_width (truncate_to_width t w) : Int) ≤ w := by
  by_cases h0 : w ≤ 0
  · rw [truncate_nonpos h0, display_width_nil]; omega
  · rw [truncate_pos_def t w h0]
    have hpre := truncLoop_isPre w.toNat t 0
    have houtwide : ∀ c ∈ (truncLoop w.toNat t 0).1, eaWide c = false :=
      fun c hc => hwide c (hpre.subset hc)
    have hout : (display_width (truncLoop w.toNat t 0).1 : Int) ≤ w := by
      have h1 := dw_le_cwSum houtwide
      have h2 := truncLoop_le w.toNat t 0 (Nat.zero_le _)
      have h3 := truncLoop_snd w.toNat t 0
      omega
    by_cases h2 : (truncLoop w.toNat t 0).2 < display_width t
    · rw [if_pos h2]
      by_cases h3 : (3 : Int) ≤ w
      · rw [if_pos h3]
        have := ellipsis_result_width (W := w.toNat)
          (truncLoop w.toNat t 0).1 (by omega)
        omega
      · rw [if_neg h3]; exact hout
    · rw [if_neg h2]; exact hout

theorem go_rest_BLUE :
    go ['[', '1', ';', '3', '4', 'm'] AnsiState.sawEsc = [] := by decide

theorem go_BLUE (s : AnsiState) : go BLUE s = flushState s := by
  show stepOut s escChar
      ++ go ['[', '1', ';', '3', '4', 'm'] (stepState s escChar) = flushState s
  rw [stepState_esc, go_rest_BLUE, List.append_nil]
  cases s <;> rfl

theorem strip_ansi_append_BLUE (a : List Char) :
    strip_ansi (a ++ BLUE) = strip_ansi a := by
  unfold strip_ansi
  rw [go_append a BLUE AnsiState.normal, go_BLUE, go_eq_emit a AnsiState.normal]

theorem dw_append_BLUE (a : List Char) :
    display_width (a ++ BLUE) = display_width a := by
  simp [display_width, strip_ansi_append_BLUE]

theorem content_width_any (pre v' : List Char)
    (hpre : runState pre .normal = .normal) :
    display_width (pre ++ v' ++ BLUE)
      = display_width pre + display_width v' := by
  rw [List.append_assoc,
    display_width_append_of_runState pre (v' ++ BLUE) hpre, dw_append_BLUE]

theorem compose_line_eq (pre value : List Char) (inner : Int) :
    compose_line pre value inner =
      BLUE ++ ['│']
        ++ (pre ++ truncate_to_width value (inner - display_width pre) ++ BLUE)
        ++ List.replicate
            (if inner - display_width
                  (pre ++ truncate_to_width value (inner - display_width pre)
                    ++ BLUE) < 0
              then (0 : Int)
              else inner - display_width
                  (pre ++ truncate_to_width value (inner - display_width pre)
                    ++ BLUE)).toNat ' '
        ++ BLUE ++ ['│'] := rfl

theorem compose_line_width (pre value : List Char) (inner : Int)
    (hpre0 : runState pre .normal = .normal)
    (hwide : ∀ c ∈ value, eaWide c = false)
    (hpre : (display_width pre : Int) ≤ inner) :
    (display_width (compose_line pre value inner) : Int) = inner + 2 := by
  have hmvw : (0 : Int) ≤ inner - display_width pre := by omega
  have hv'w := truncate_width_le_wide (w := inner - display_width pre) hwide hmvw
  have hcontent := content_width_any pre
    (truncate_to_width value (inner - display_width pre)) hpre0
  have hcle : (display_width
      (pre ++ truncate_to_width value (inner - display_width pre) ++ BLUE) : Int)
      ≤ inner := by omega
  rw [compose_line_eq, if_neg (by omega), box_line_width _ _
    (content_runState pre (truncate_to_width value (inner - display_width pre)))]
  omega

end TTD

namespace TTD

theorem strip_BLUE (b : List Char) : strip_ansi (BLUE ++ b) = strip_ansi b :=
  strip_ansi_ansiSeq_append ['1', ';', '3', '4'] b (by decide)

theorem strip_WHITE (b : List Char) : strip_ansi (WHITE ++ b) = strip_ansi b :=
  strip_ansi_ansiSeq_append ['4', '7'] b (by decide)

theorem strip_GRAY (b : List Char) : strip_ansi (GRAY ++ b) = strip_ansi b :=
  strip_ansi_ansiSeq_append ['1', ';', '3', '0'] b (by decide)

theorem strip_RESET (b : List Char) : strip_ansi (RESET ++ b) = strip_ansi b :=
  strip_ansi_ansiSeq_append ['0'] b (by decide)

theorem dw_BLUE_append (b : List Char) :
    display_width (BLUE ++ b) = display_width b := by
  simp [display_width, strip_BLUE]

theorem runState_GREEN2 (s : AnsiState) : runState GREEN2 s = .normal :=
  runState_ansiSeq ['1', ';', '3', '8', ';', '5', ';', '4', '7'] (by decide) s

theorem runState_kv_pre (label lc : List Char) :
    runState (kv_pre label lc BLUE) .normal = .normal := by
  show runState (([' '] ++ GRAY ++ ['【'] ++ RESET ++ ['●'] ++ GRAY ++ ['】']
      ++ lc ++ label ++ [':', ' ']) ++ BLUE) .normal = .normal
  rw [runState_append]
  exact runState_BLUE _

theorem runState_menu_pre (index : List Char) :
    runState (menu_pre index GREEN2) .normal = .normal := by
  show runState (([' '] ++ GRAY ++ ['【'] ++ RESET ++ index ++ GRAY ++ ['】'])
      ++ GREEN2) .normal = .normal
  rw [runState_append]
  exact runState_GREEN2 _

theorem dw_single_append (c : Char) (b : List Char) (hc : c ≠ escChar) :
    display_width ([c] ++ b) = dwChar c + display_width b := by
  show display_width (c :: b) = dwChar c + display_width b
  exact display_width_cons c b hc

theorem dw_replicate_append (n : Nat) (c : Char) (b : List Char)
    (hc : c ≠ escChar) :
    display_width (List.replicate n c ++ b) = n * dwChar c + display_width b := by
  have hmem : escChar ∉ List.replicate n c := by
    intro hm
    exact hc (List.eq_of_mem_replicate hm).symm
  rw [display_width_append_of_runState _ _ (runState_of_no_esc hmem),
    display_width_of_no_esc hmem]
  show (List.map dwChar (List.replicate n c)).sum + display_width b = _
  rw [List.map_replicate, List.sum_replicate, smul_eq_mul]

theorem runState_header_colored (title : List Char) :
    runState (header_label_colored title) .normal = .normal := by
  show runState ((([' ', '<'] ++ WHITE ++ GRAY ++ [' '] ++ title ++ [' ']
      ++ WHITE ++ RESET) ++ BLUE) ++ ['>', ' ']) .normal = .normal
  rw [runState_append, runState_append, runState_BLUE]
  decide

theorem strip_header_colored {title : List Char} (hesc : escChar ∉ title) :
    strip_ansi (header_label_colored title) = header_label_visible title := by
  show strip_ansi ([' ', '<'] ++ WHITE ++ GRAY ++ [' '] ++ title ++ [' ']
      ++ WHITE ++ RESET ++ BLUE ++ ['>', ' ']) = header_label_visible title
  simp only [List.append_assoc]
  rw [strip_esc_free_append _ (by decide : escChar ∉ [' ', '<']),
    strip_WHITE, strip_GRAY,
    strip_esc_free_append _ (by decide : escChar ∉ [' ']),
    strip_esc_free_append _ hesc,
    strip_esc_free_append _ (by decide : escChar ∉ [' ']),
    strip_WHITE, strip_RESET, strip_BLUE,
    strip_ansi_of_no_esc (by decide : escChar ∉ ['>', ' '])]
  simp [header_label_visible]

theorem dw_header_colored_append {title : List Char} (b : List Char)
    (hesc : escChar ∉ title) :
    display_width (header_label_colored title ++ b)
      = display_width (header_label_visible title) + display_width b := by
  rw [display_width_append_of_runState _ _ (runState_header_colored title)]
  have h1 : display_width (header_label_colored title)
      = display_width (header_label_visible title) := by
    unfold display_width
    rw [strip_header_colored hesc]
    have hlv : escChar ∉ header_label_visible title := by
      unfold header_label_visible
      intro hm
      rcases List.mem_append.mp hm with h | h
      · rcases List.mem_append.mp h with h2 | h2
        · exact absurd h2 (by decide)
        · exact hesc h2
      · exact absurd h (by decide)
    rw [strip_ansi_of_no_esc hlv]
  omega

theorem box_header_width (title : List Char) (W : Int) (hesc : escChar ∉ title)
    (hd : 0 ≤ W - 2 - (display_width (header_label_visible title) : Int)) :
    (display_width (box_header title W) : Int) = W := by
  show (display_width (BLUE ++ ['╭']
      ++ List.replicate (Int.fdiv ((W - 2)
          - display_width (header_label_visible title)) 2).toNat '─'
      ++ header_label_colored title
      ++ List.replicate (((W - 2) - display_width (header_label_visible title))
          - Int.fdiv ((W - 2) - display_width (header_label_visible title)) 2).toNat '─'
      ++ ['╮']) : Int) = W
  simp only [List.append_assoc]
  rw [dw_BLUE_append, dw_single_append '╭' _ (by decide),
    dw_replicate_append _ '─' _ (by decide),
    dw_header_colored_append _ hesc,
    dw_replicate_append _ '─' _ (by decide)]
  have h1 : dwChar '╭' = 1 := by decide
  have h2 : dwChar '─' = 1 := by decide
  have h3 : display_width ['╮'] = 1 := by decide
  rw [h1, h2, h3, Int.fdiv_eq_ediv _ (by norm_num)]
  omega

end TTD

namespace TTD

/-- Claim C1, counterexample: with label "Title" and inner width 15 the
decorated label part has display width 13 ≤ 15, yet the line emitted for the
value "您x" has stripped display width 18 rather than 15 + 2 = 17.  The
truncation loop budgets the wide characters at one column each, so the
content overflows and the padding clamps at zero. -/
theorem claim_C1_counterexample :
    (display_width (kv_pre "Title".toList CYAN BLUE) : Int) ≤ 15 ∧
      display_width (format_kv_line "Title".toList "您x".toList CYAN BLUE 15)
        ≠ 17 :=
  ⟨by decide, by decide⟩

/-- Claim C1 (amended): for every label, index and inner width, and every
value / menu text containing no East-Asian wide character (ANSI escape
sequences in the value are allowed), if the decorated label part's display
width is at most the inner width then the returned line's display width
after stripping ANSI codes (border glyphs included) equals inner width + 2,
both for `format_kv_line` and for `format_menu_line` at their default
colors.  For wide-free values the loop's per-character budget bounds the
truncated value's display width (stripping only removes characters), so the
content never overflows the inner width. -/
theorem claim_C1 (label index value text : List Char) (inner : Int)
    (hvwide : ∀ c ∈ value, eaWide c = false)
    (htwide : ∀ c ∈ text, eaWide c = false)
    (hkv : (display_width (kv_pre label CYAN BLUE) : Int) ≤ inner)
    (hmenu : (display_width (menu_pre index GREEN2) : Int) ≤ inner) :
    (display_width (format_kv_line label value CYAN BLUE inner) : Int)
        = inner + 2 ∧
      (display_width (format_menu_line index text GREEN2 inner) : Int)
        = inner + 2 :=
  ⟨compose_line_width _ _ _ (runState_kv_pre label CYAN) hvwide hkv,
    compose_line_width _ _ _ (runState_menu_pre index) htwide hmenu⟩

/-- Witness for claim C1 at label "Title", the ANSI-colored value
"\x1b[0mab", index "1", text "Exit", inner width 20. -/
theorem claim_C1_witness :
    (display_width
        (format_kv_line "Title".toList "\x1b[0mab".toList CYAN BLUE 20)
        : Int) = 22 ∧
      (display_width (format_menu_line "1".toList "Exit".toList GREEN2 20)
        : Int) = 22 :=
  claim_C1 "Title".toList "1".toList "\x1b[0mab".toList "Exit".toList 20
    (by decide) (by decide) (by decide) (by decide)

/-- Claim C2, counterexample: the code is not the identity on text that fits
its budget.  "您您" has display width 4 ≤ 4 but truncates to "...";
"\x1b[0m" has display width 0 ≤ 1 but truncates to the bare ESC character;
a lone combining mark has display width 0 ≤ 0 but truncates to "". -/
theorem claim_C2_counterexample :
    ((display_width "您您".toList : Int) ≤ 4 ∧
        truncate_to_width "您您".toList 4 ≠ "您您".toList) ∧
      ((display_width "\x1b[0m".toList : Int) ≤ 1 ∧
        truncate_to_width "\x1b[0m".toList 1 ≠ "\x1b[0m".toList) ∧
      ((display_width ['́'] : Int) ≤ 0 ∧
        truncate_to_width ['́'] 0 ≠ ['́']) := by
  refine ⟨⟨by decide, by decide⟩, ⟨by decide, by decide⟩, by decide, by decide⟩

/-- Claim C2 (amended): truncation is the identity on text that fits its
budget, provided the budget is positive and the text contains no ESC
character and no East-Asian wide character (ANSI escape characters and wide
characters make the loop's character-count budget diverge from the display
width, and a budget of 0 returns "" even for zero-width text). -/
theorem claim_C2 (t : List Char) (w : Int) (hesc : escChar ∉ t)
    (hwide : ∀ c ∈ t, eaWide c = false) (hw : (display_width t : Int) ≤ w)
    (hpos : 0 < w) : truncate_to_width t w = t :=
  truncate_of_fits hesc hwide hw hpos

/-- Witness for claim C2 at t = "abc", w = 5. -/
theorem claim_C2_witness : truncate_to_width "abc".toList 5 = "abc".toList :=
  claim_C2 "abc".toList 5 (by decide) (by decide) (by decide) (by decide)

/-- Claim C3 (confirmed): for every text and every budget w with
3 ≤ w < displayWidth(t), the truncation result has display width at most w
and ends with the three-character ellipsis marker "...". -/
theorem claim_C3 (t : List Char) (w : Int) (h3 : 3 ≤ w)
    (hlt : w < (display_width t : Int)) :
    (display_width (truncate_to_width t w) : Int) ≤ w ∧
      ellipsis <:+ truncate_to_width t w :=
  truncate_c3_core h3 hlt

/-- Witness for claim C3 at t = "hello world", w = 5. -/
theorem claim_C3_witness :
    (display_width (truncate_to_width "hello world".toList 5) : Int) ≤ 5 ∧
      ellipsis <:+ truncate_to_width "hello world".toList 5 :=
  claim_C3 "hello world".toList 5 (by decide) (by decide)

/-- Claim C4 (code bug): the per-character width classifier `char_width`
returns 1, not 2, on the East-Asian wide code point U+60A8 (您), although
the classification used inside `display_width` gives it 2 columns.  The
claim (and the classification that `display_width` itself implements)
requires 2 columns for Wide/Fullwidth code points; `char_width` omits that
case, which is what makes the truncation loop inconsistent with
`display_width`. -/
theorem claim_C4 :
    char_width '您' = 1 ∧ eaWide '您' = true ∧ dwChar '您' = 2 := by
  refine ⟨by decide, by decide, by decide⟩

/-- Claim C5, counterexample: the prefix built by the truncation loop is not
the longest prefix of display width at most the budget.  For "您x" with
budget 1 the loop keeps the double-width character (display width 2 > 1)
instead of dropping it, and for "\x1b[0mab" with budget 1 the loop stops
inside the ANSI escape sequence, so ANSI sequences are neither preserved
verbatim nor free of budget. -/
theorem claim_C5_counterexample :
    display_width (truncLoop 1 "您x".toList 0).1 = 2 ∧
      (truncLoop 1 "\x1b[0mab".toList 0).1 = [escChar] := by
  refine ⟨by decide, by decide⟩

/-- Claim C5 (amended): for a positive budget the prefix built by the
truncation loop (before any ellipsis handling) is the longest prefix of the
text whose `char_width` sum does not exceed the budget, where `char_width`
counts 0 for combining marks and 1 for every other character — including
every character of an ANSI escape sequence and every double-width
character. -/
theorem claim_C5 (t : List Char) (w : Int) (hw : 0 < w)
    (hgt : w < (display_width t : Int)) :
    (truncLoop w.toNat t 0).1 <+: t ∧
      cwSum (truncLoop w.toNat t 0).1 ≤ w.toNat ∧
      ∀ p, p <+: t → cwSum p ≤ w.toNat → p <+: (truncLoop w.toNat t 0).1 := by
  refine ⟨truncLoop_isPre _ _ _, ?_,
    fun p hp hw2 => truncLoop_longest _ t p 0 hp (by omega)⟩
  have h1 := truncLoop_le w.toNat t 0 (Nat.zero_le _)
  have h2 := truncLoop_snd w.toNat t 0
  omega

/-- Witness for claim C5 at t = "abc您", w = 2. -/
theorem claim_C5_witness :
    (truncLoop 2 "abc您".toList 0).1 <+: "abc您".toList ∧
      cwSum (truncLoop 2 "abc您".toList 0).1 ≤ 2 ∧
      ∀ p, p <+: "abc您".toList → cwSum p ≤ 2 →
        p <+: (truncLoop 2 "abc您".toList 0).1 :=
  claim_C5 "abc您".toList 2 (by decide) (by decide)

/-- Claim C6, counterexample: truncation is not idempotent.  For "a您您您"
with budget 7 the first truncation yields "a您...", and truncating that
again with budget 7 yields "a您....". -/
theorem claim_C6_counterexample :
    truncate_to_width (truncate_to_width "a您您您".toList 7) 7
      ≠ truncate_to_width "a您您您".toList 7 := by decide

/-- Claim C6 (amended): truncation is idempotent on text containing no ESC
character and no East-Asian wide character (for such text the loop's
character budget agrees with the display width, so a truncated result always
fits and is returned unchanged). -/
theorem claim_C6 (t : List Char) (w : Int) (hesc : escChar ∉ t)
    (hwide : ∀ c ∈ t, eaWide c = false) :
    truncate_to_width (truncate_to_width t w) w = truncate_to_width t w :=
  truncate_idem hesc hwide

/-- Witness for claim C6 at t = "hello world", w = 5. -/
theorem claim_C6_witness :
    truncate_to_width (truncate_to_width "hello world".toList 5) 5
      = truncate_to_width "hello world".toList 5 :=
  claim_C6 "hello world".toList 5 (by decide) (by decide)

/-- Claim C7 (confirmed): `display_width` strips ANSI escape sequences,
skips combining marks, counts East-Asian Wide/Fullwidth code points as 2 and
all other code points as 1; in particular the colored "AB" has width 2 like
the plain "AB", e followed by U+0301 has width 1, and "您好" has width 4.
The last conjunct states the ANSI part in general: prepending a complete
ANSI sequence never changes the width. -/
theorem claim_C7 :
    display_width "\x1b[1;34mAB\x1b[0m".toList = 2 ∧
      display_width "AB".toList = 2 ∧
      display_width ['e', '́'] = 1 ∧
      display_width "您好".toList = 4 ∧
      ∀ t : List Char, display_width (BLUE ++ t) = display_width t :=
  ⟨by decide, by decide, by decide, by decide, dw_BLUE_append⟩

/-- Claim C8 (confirmed): for a title without ANSI escape characters and a
total width W whose leftover dash budget d = (W - 2) - displayWidth(" < title > ")
is non-negative, `box_header` places ⌊d/2⌋ dashes on the left of the label
and d - ⌊d/2⌋ on the right (odd remainder to the right), and the header's
display width after stripping ANSI codes equals W. -/
theorem claim_C8 (title : List Char) (W : Int) (hesc : escChar ∉ title)
    (hd : 0 ≤ W - 2 - (display_width (header_label_visible title) : Int)) :
    box_header title W
        = BLUE ++ ['╭']
          ++ List.replicate
              ((W - 2 - (display_width (header_label_visible title) : Int))
                / 2).toNat '─'
          ++ header_label_colored title
          ++ List.replicate
              ((W - 2 - (display_width (header_label_visible title) : Int))
                - (W - 2 - (display_width (header_label_visible title) : Int))
                  / 2).toNat '─'
          ++ ['╮'] ∧
      (display_width (box_header title W) : Int) = W := by
  constructor
  · show BLUE ++ ['╭']
        ++ List.replicate
            (Int.fdiv (W - 2
              - (display_width (header_label_visible title) : Int)) 2).toNat '─'
        ++ header_label_colored title
        ++ List.replicate
            ((W - 2 - (display_width (header_label_visible title) : Int))
              - Int.fdiv (W - 2
                - (display_width (header_label_visible title) : Int)) 2).toNat '─'
        ++ ['╮'] = _
    rw [Int.fdiv_eq_ediv _ (by norm_num)]
  · exact box_header_width title W hesc hd

/-- Witness for claim C8 at title "Menu", W = 71. -/
theorem claim_C8_witness :
    box_header "Menu".toList 71
        = BLUE ++ ['╭']
          ++ List.replicate
              ((71 - 2 - (display_width (header_label_visible "Menu".toList)
                : Int)) / 2).toNat '─'
          ++ header_label_colored "Menu".toList
          ++ List.replicate
              ((71 - 2 - (display_width (header_label_visible "Menu".toList)
                : Int))
                - (71 - 2 - (display_width (header_label_visible "Menu".toList)
                  : Int)) / 2).toNat '─'
          ++ ['╮'] ∧
      (display_width (box_header "Menu".toList 71) : Int) = 71 :=
  claim_C8 "Menu".toList 71 (by decide) (by decide)

/-- Claim C9 (confirmed): the formatter's degenerate cases are well defined
(all modelled operations are total functions): truncation returns "" for any
text when the budget is ≤ 0 and for the empty text at any budget; for a
budget strictly between 0 and 3 on text that does not fit, the loop's
truncated prefix is returned with no ellipsis appended; and a decorated
label part wider than the inner width produces a line with zero padding
(the negative padding is clamped) rather than a negative repetition count. -/
theorem claim_C9 (t label value : List Char) (w inner : Int) :
    (w ≤ 0 → truncate_to_width t w = []) ∧
      truncate_to_width [] w = [] ∧
      (0 < w → w < 3 → w < (display_width t : Int) →
        truncate_to_width t w = (truncLoop w.toNat t 0).1) ∧
      (inner < (display_width (kv_pre label CYAN BLUE) : Int) →
        format_kv_line label value CYAN BLUE inner
          = BLUE ++ ['│'] ++ (kv_pre label CYAN BLUE ++ BLUE)
              ++ BLUE ++ ['│']) := by
  refine ⟨fun h => truncate_nonpos h, truncate_nil w,
    fun h1 h2 h3 => truncate_small h1 h2 h3, fun hgt => ?_⟩
  show compose_line (kv_pre label CYAN BLUE) value inner = _
  rw [compose_line_eq]
  have hneg : inner - (display_width (kv_pre label CYAN BLUE) : Int) ≤ 0 := by
    omega
  rw [truncate_nonpos hneg]
  have hdw2 : display_width (kv_pre label CYAN BLUE ++ ([] : List Char) ++ BLUE)
      = display_width (kv_pre label CYAN BLUE) := by
    rw [List.append_nil,
      display_width_append_of_runState _ _ (runState_kv_pre label CYAN)]
    have hB0 : display_width BLUE = 0 := by decide
    omega
  rw [if_pos (show inner - (display_width (kv_pre label CYAN BLUE
      ++ ([] : List Char) ++ BLUE) : Int) < 0 by rw [hdw2]; omega)]
  simp

/-- Witness for claim C9 at t = "abc" / "您好", w = -1 / 5 / 2, label
"Title", value "v", inner width 5. -/
theorem claim_C9_witness :
    truncate_to_width "abc".toList (-1) = [] ∧
      truncate_to_width [] 5 = [] ∧
      truncate_to_width "您好".toList 2 = (truncLoop 2 "您好".toList 0).1 ∧
      format_kv_line "Title".toList "v".toList CYAN BLUE 5
        = BLUE ++ ['│'] ++ (kv_pre "Title".toList CYAN BLUE ++ BLUE)
            ++ BLUE ++ ['│'] :=
  ⟨(claim_C9 "abc".toList [] [] (-1) 0).1 (by decide),
    (claim_C9 [] [] [] 5 0).2.1,
    (claim_C9 "您好".toList [] [] 2 0).2.2.1 (by decide) (by decide) (by decide),
    (claim_C9 [] "Title".toList "v".toList 0 5).2.2.2 (by decide)⟩

/-- Claim C10 (confirmed): for every text and every integer budget, the
truncation result is either a prefix of the text, or a (possibly empty)
prefix of the text followed by exactly the three characters "...". -/
theorem claim_C10 (t : List Char) (w : Int) :
    truncate_to_width t w <+: t ∨
      ∃ p, p <+: t ∧ truncate_to_width t w = p ++ ellipsis :=
  truncate_shape t w

end TTD
